import Mathlib

/-!
Verification development for the EIP-712 typed-data encoder of this repository
(package `core`: `signed_data.go` and the clique header helper).

Modelling conventions:
* Byte sequences (`[]byte`, `hexutil.Bytes`, `common.Address`) are `List Nat`
  with entries in `[0, 256)`.
* Go maps (`Types`, `map[string]interface{}`) are association lists; a Go map
  is semantically its lookup function, and the encoder only reads maps through
  indexing, so list order is irrelevant to every modelled operation except the
  order in which validation errors are discovered (not their existence).
* `interface{}` values reaching the encoder are modelled by the inductive
  `GoValue`; a missing map key yields Go `nil`, modelled by `GoValue.vNil`
  (a Go type assertion on a nil interface always fails).
* `crypto.Keccak256` is an external collaborator (spec, section 1) and is
  passed in as an explicit function argument `keccak`.
* Functions that recurse through user data (`Dependencies`, `EncodeData`,
  big-integer byte decomposition) are written with an explicit fuel argument
  so that they are structurally recursive and kernel-computable; the exported
  wrappers supply fuel that strictly exceeds the recursion depth the Go code
  can reach on the same input (`Dependencies` adds a distinct dictionary key
  before each nested call; `EncodeData` descends into a structurally smaller
  subvalue on each nested call), so the out-of-fuel branch is unreachable
  through the wrappers.
-/

namespace SignedData

set_option maxRecDepth 20000

/-- Byte sequences: each entry is a byte value in `[0, 256)`. -/
abbrev Bytes := List Nat

/-- Fuel-driven bit length; see `bitLen`. -/
def bitLenAux : Nat → Nat → Nat
  | 0, _ => 0
  | fuel+1, n => if n = 0 then 0 else bitLenAux fuel (n / 2) + 1

/-- Modelled from the spec: `big.Int.BitLen` — the length in bits of the
absolute value (0 for 0). The fuel `n + 1` exceeds the halving depth. -/
def bitLen (n : Nat) : Nat := bitLenAux (n + 1) n

/-- `big.Int.BitLen` for integers: bit length of the absolute value. -/
def bitLenI (i : Int) : Nat := bitLen i.natAbs

/-- Fuel-driven big-endian byte decomposition; see `beBytes`. -/
def beBytesAux : Nat → Nat → Bytes
  | 0, _ => []
  | fuel+1, n => if n = 0 then [] else beBytesAux fuel (n / 256) ++ [n % 256]

/-- Modelled from the spec: `big.Int.Bytes` — the minimal big-endian byte
representation of the absolute value (empty for 0). -/
def beBytes (n : Nat) : Bytes := beBytesAux (n + 1) n

/-- The big-endian value of a byte sequence (`big.Int.SetBytes`). -/
def beVal (bs : Bytes) : Nat := bs.foldl (fun a b => a * 256 + b) 0

/-- Modelled from the spec: `math.PaddedBigBytes bigint n` — the big-endian
bytes of `bigint`, left-padded with zeros to `n` bytes; when the bit length
reaches `8 * n` the minimal bytes are returned unpadded (Go returns
`bigint.Bytes()` whenever `bigint.BitLen()/8 >= n`). -/
def paddedBigBytes (m : Nat) (n : Nat) : Bytes :=
  if n ≤ bitLen m / 8 then beBytes m
  else List.replicate (n - (beBytes m).length) 0 ++ beBytes m

/-- Modelled from the spec: `math.U256` — truncation to an unsigned 256-bit
value. Go computes `b.And(b, 2^256 - 1)` on the infinite two's-complement
representation, which equals the non-negative remainder modulo `2 ^ 256`. -/
def u256 (b : Int) : Nat := (b.emod (2 ^ 256)).toNat

/-- Modelled from the spec: `math.U256Bytes` — the 32-byte big-endian
two's-complement (mod `2 ^ 256`) encoding of an integer. -/
def U256Bytes (b : Int) : Bytes := paddedBigBytes (u256 b) 32

/-- `strings.HasPrefix`. -/
def startsW (s p : String) : Bool := p.data.isPrefixOf s.data

/-- `strings.HasSuffix`. -/
def endsW (s p : String) : Bool := p.data.isSuffixOf s.data

/-- `strings.TrimPrefix` (returns `s` unchanged when `p` is not there). -/
def trimPref (s p : String) : String :=
  if startsW s p then ⟨s.data.drop p.data.length⟩ else s

/-- Drop the last `n` elements of a list. -/
def dropRightL {α : Type} (l : List α) (n : Nat) : List α := l.take (l.length - n)

/-- Drop the last `n` characters (all uses drop a known ASCII character, so
character-level and Go's byte-level truncation agree). -/
def dropRightStr (s : String) (n : Nat) : String := ⟨dropRightL s.data n⟩

/-- `strings.Split(s, "[")[0]`: the part before the first `[`. -/
def splitBracketHead (s : String) : String := ⟨s.data.takeWhile (fun c => c ≠ '[')⟩

/-- UTF-8 encoding of one character. -/
def utf8Char (c : Char) : Bytes :=
  let n := c.toNat
  if n < 128 then [n]
  else if n < 2048 then [192 + n / 64, 128 + n % 64]
  else if n < 65536 then [224 + n / 4096, 128 + (n / 64) % 64, 128 + n % 64]
  else [240 + n / 262144, 128 + (n / 4096) % 64, 128 + (n / 64) % 64, 128 + n % 64]

/-- The UTF-8 bytes of a string (Go `[]byte(s)`). -/
def strBytes (s : String) : Bytes := s.data.foldl (fun acc c => acc ++ utf8Char c) []

/-- Decimal digit accumulation; fails on a non-digit. -/
def digitsValAux : List Char → Nat → Option Nat
  | [], acc => some acc
  | c :: rest, acc =>
    if c.isDigit then digitsValAux rest (acc * 10 + (c.toNat - 48)) else none

/-- Modelled from the spec: `strconv.Atoi` — an optional sign followed by at
least one decimal digit (the int64 overflow bound is not modelled; all type
spellings the encoder meets are far below it). -/
def atoi (s : String) : Option Int :=
  match s.data with
  | [] => none
  | '+' :: rest => if rest.isEmpty then none else (digitsValAux rest 0).map (fun n => (n : Int))
  | '-' :: rest => if rest.isEmpty then none else (digitsValAux rest 0).map (fun n => -(n : Int))
  | cs => (digitsValAux cs 0).map (fun n => (n : Int))

/-- Hexadecimal digit accumulation; fails on a non-hex character. -/
def hexDigitsValAux : List Char → Nat → Option Nat
  | [], acc => some acc
  | c :: rest, acc =>
    if c.isDigit then hexDigitsValAux rest (acc * 16 + (c.toNat - 48))
    else if 'a' ≤ c ∧ c ≤ 'f' then hexDigitsValAux rest (acc * 16 + (c.toNat - 87))
    else if 'A' ≤ c ∧ c ≤ 'F' then hexDigitsValAux rest (acc * 16 + (c.toNat - 55))
    else none

/-- Modelled from the spec: `math.HexOrDecimal256` text parsing — a big
integer given as `0x`-prefixed hexadecimal or as decimal text, limited to 256
bits ("chainId parses via the same integer coercion as uint256"). -/
def hexOrDecimal256 (s : String) : Option Int :=
  if s = "" then some 0
  else
    let parseMag : List Char → Option Nat := fun cs =>
      match cs with
      | '0' :: 'x' :: rest => if rest.isEmpty then none else hexDigitsValAux rest 0
      | '0' :: 'X' :: rest => if rest.isEmpty then none else hexDigitsValAux rest 0
      | ds => if ds.isEmpty then none else digitsValAux ds 0
    match s.data with
    | '-' :: rest =>
      (parseMag rest).bind (fun n => if bitLen n ≤ 256 then some (-(n : Int)) else none)
    | cs =>
      (parseMag cs).bind (fun n => if bitLen n ≤ 256 then some ((n : Int)) else none)

/-- One hexadecimal digit as a number (only used on valid hex digits). -/
def isHexDigitC (c : Char) : Bool :=
  c.isDigit || ('a' ≤ c && c ≤ 'f') || ('A' ≤ c && c ≤ 'F')

/-- Value of one hexadecimal digit character. -/
def hexDigitVal (c : Char) : Nat :=
  if c.isDigit then c.toNat - 48
  else if 'a' ≤ c then c.toNat - 87
  else c.toNat - 55

/-- Modelled from the spec: `common.IsHexAddress` — an optional `0x`/`0X`
tag followed by exactly 40 hexadecimal digits. -/
def isHexAddress (s : String) : Bool :=
  let cs := if startsW s "0x" || startsW s "0X" then s.data.drop 2 else s.data
  cs.length = 40 && cs.all isHexDigitC

/-- Pair up hex digits into bytes (big-endian within each byte). -/
def hexPairsToBytes : List Char → Bytes
  | c1 :: c2 :: rest => (hexDigitVal c1 * 16 + hexDigitVal c2) :: hexPairsToBytes rest
  | _ => []

/-- Modelled from the spec: `common.HexToAddress(s).Bytes()` — the 20 address
bytes parsed from the hex string (faithful on strings accepted by
`isHexAddress`, the only way the encoder reaches it). -/
def hexToAddressBytes (s : String) : Bytes :=
  hexPairsToBytes (if startsW s "0x" || startsW s "0X" then s.data.drop 2 else s.data)

/-- Go struct `Type`: one field descriptor (`Name`, `Type`). -/
structure TDType where
  name : String
  typ : String
deriving DecidableEq

/-- Go `Types = map[string][]Type`, as an association list. -/
abbrev TypesT := List (String × List TDType)

/-- Map lookup (`t[key]`; `none` models the nil slice for an absent key). -/
def lookupTypes : TypesT → String → Option (List TDType)
  | [], _ => none
  | (k, v) :: rest, key => if k = key then some v else lookupTypes rest key

/-- `t[key]` where only the (possibly nil, hence empty) slice is used. -/
def getTypes (t : TypesT) (key : String) : List TDType := (lookupTypes t key).getD []

/-- `t[key] != nil`. -/
def hasKeyT (t : TypesT) (key : String) : Bool := (lookupTypes t key).isSome

/-- A Go `interface{}` value as it reaches the encoder after JSON ingestion
or direct construction. `vNil` is the nil interface (in particular the result
of reading an absent map key). `vBytes` is `[]byte` and `vHexBytes` is
`hexutil.Bytes`; Go type assertions distinguish the two. `vFloat` abstracts a
`float64` by its `int64` truncation and whether the conversion is lossless
(`float64(int64(v)) == v`). -/
inductive GoValue where
  | vNil
  | vStr (s : String)
  | vBool (b : Bool)
  | vBytes (bs : Bytes)
  | vHexBytes (bs : Bytes)
  | vBigInt (i : Int)
  | vFloat (trunc : Int) (lossless : Bool)
  | vArr (items : List GoValue)
  | vMap (entries : List (String × GoValue))

/-- Go `map[string]interface{}` (`TypedDataMessage`), as an association list. -/
abbrev GoMap := List (String × GoValue)

/-- Map lookup on a message. -/
def lookupGo : GoMap → String → Option GoValue
  | [], _ => none
  | (k, v) :: rest, key => if k = key then some v else lookupGo rest key

/-- Go struct `TypedDataDomain`. `chainId` is a `*math.HexOrDecimal256`,
modelled by its integer value (`none` for nil). -/
structure TypedDataDomain where
  name : String
  version : String
  chainId : Option Int
  verifyingContract : String
  salt : String

/-- Go struct `TypedData`. -/
structure TypedData where
  types : TypesT
  primaryType : String
  domain : TypedDataDomain
  message : GoMap

/-- `Type.isArray`. -/
def isArrayT (t : TDType) : Bool := endsW t.typ "[]"

/-- `Type.typeName`: the type with a trailing `[]` stripped. -/
def typeNameOf (s : String) : String := if endsW s "[]" then dropRightStr s 2 else s

/-- `Type.isReferenceType`: non-empty and the first character is uppercase
(`unicode.IsUpper`; ASCII test, which agrees on all ASCII type names). -/
def isReferenceType (s : String) : Bool :=
  match s.data with
  | [] => false
  | c :: _ => c.isUpper

/-- `\w` of the reference-type regular expression (`[0-9A-Za-z_]`). -/
def isWordChar (c : Char) : Bool := c.isAlphanum || c = '_'

/-- `typedDataReferenceTypeRegexp`: matcher for `^[A-Z](\w*)(\[\])?$`. -/
def refRegexMatch (s : String) : Bool :=
  match s.data with
  | [] => false
  | c :: rest =>
    ('A' ≤ c && c ≤ 'Z') &&
    (if ['[', ']'].isSuffixOf rest then (dropRightL rest 2).all isWordChar
     else rest.all isWordChar)

/-- `isPrimitiveTypeValid`: the closed registry of primitive type spellings. -/
def isPrimitiveTypeValid (primitiveType : String) : Bool :=
  (primitiveType = "address" || primitiveType = "address[]" ||
   primitiveType = "bool" || primitiveType = "bool[]" ||
   primitiveType = "string" || primitiveType = "string[]") ||
  (primitiveType = "bytes" || primitiveType = "bytes[]" ||
   primitiveType = "bytes1" || primitiveType = "bytes1[]" ||
   primitiveType = "bytes2" || primitiveType = "bytes2[]" ||
   primitiveType = "bytes3" || primitiveType = "bytes3[]" ||
   primitiveType = "bytes4" || primitiveType = "bytes4[]" ||
   primitiveType = "bytes5" || primitiveType = "bytes5[]" ||
   primitiveType = "bytes6" || primitiveType = "bytes6[]" ||
   primitiveType = "bytes7" || primitiveType = "bytes7[]" ||
   primitiveType = "bytes8" || primitiveType = "bytes8[]" ||
   primitiveType = "bytes9" || primitiveType = "bytes9[]" ||
   primitiveType = "bytes10" || primitiveType = "bytes10[]" ||
   primitiveType = "bytes11" || primitiveType = "bytes11[]" ||
   primitiveType = "bytes12" || primitiveType = "bytes12[]" ||
   primitiveType = "bytes13" || primitiveType = "bytes13[]" ||
   primitiveType = "bytes14" || primitiveType = "bytes14[]" ||
   primitiveType = "bytes15" || primitiveType = "bytes15[]" ||
   primitiveType = "bytes16" || primitiveType = "bytes16[]" ||
   primitiveType = "bytes17" || primitiveType = "bytes17[]" ||
   primitiveType = "bytes18" || primitiveType = "bytes18[]" ||
   primitiveType = "bytes19" || primitiveType = "bytes19[]" ||
   primitiveType = "bytes20" || primitiveType = "bytes20[]" ||
   primitiveType = "bytes21" || primitiveType = "bytes21[]" ||
   primitiveType = "bytes22" || primitiveType = "bytes22[]" ||
   primitiveType = "bytes23" || primitiveType = "bytes23[]" ||
   primitiveType = "bytes24" || primitiveType = "bytes24[]" ||
   primitiveType = "bytes25" || primitiveType = "bytes25[]" ||
   primitiveType = "bytes26" || primitiveType = "bytes26[]" ||
   primitiveType = "bytes27" || primitiveType = "bytes27[]" ||
   primitiveType = "bytes28" || primitiveType = "bytes28[]" ||
   primitiveType = "bytes29" || primitiveType = "bytes29[]" ||
   primitiveType = "bytes30" || primitiveType = "bytes30[]" ||
   primitiveType = "bytes31" || primitiveType = "bytes31[]" ||
   primitiveType = "bytes32" || primitiveType = "bytes32[]") ||
  (primitiveType = "int" || primitiveType = "int[]" ||
   primitiveType = "int8" || primitiveType = "int8[]" ||
   primitiveType = "int16" || primitiveType = "int16[]" ||
   primitiveType = "int32" || primitiveType = "int32[]" ||
   primitiveType = "int64" || primitiveType = "int64[]" ||
   primitiveType = "int128" || primitiveType = "int128[]" ||
   primitiveType = "int256" || primitiveType = "int256[]") ||
  (primitiveType = "uint" || primitiveType = "uint[]" ||
   primitiveType = "uint8" || primitiveType = "uint8[]" ||
   primitiveType = "uint16" || primitiveType = "uint16[]" ||
   primitiveType = "uint32" || primitiveType = "uint32[]" ||
   primitiveType = "uint64" || primitiveType = "uint64[]" ||
   primitiveType = "uint128" || primitiveType = "uint128[]" ||
   primitiveType = "uint256" || primitiveType = "uint256[]")

/-- One descriptor check of `Types.validate` (error texts abbreviated; the
Go messages interpolate the offending names). -/
def validateTypeObj (t : TypesT) (typeKey : String) (typeObj : TDType) : Except String Unit :=
  if typeObj.typ = "" then .error ("empty Type in " ++ typeKey)
  else if typeObj.name = "" then .error ("empty Name in " ++ typeKey)
  else if typeKey = typeObj.typ then .error ("type cannot reference itself: " ++ typeObj.typ)
  else if isReferenceType typeObj.typ then
    if (lookupTypes t (typeNameOf typeObj.typ)).isNone then
      .error ("reference type is undefined: " ++ typeObj.typ)
    else if !(refRegexMatch typeObj.typ) then
      .error ("unknown reference type: " ++ typeObj.typ)
    else .ok ()
  else if !(isPrimitiveTypeValid typeObj.typ) then .error ("unknown type: " ++ typeObj.typ)
  else .ok ()

/-- The inner loop of `Types.validate`. -/
def validateTypeObjs (t : TypesT) (typeKey : String) : List TDType → Except String Unit
  | [] => .ok ()
  | typeObj :: rest =>
    match validateTypeObj t typeKey typeObj with
    | .error e => .error e
    | .ok _ => validateTypeObjs t typeKey rest

/-- The outer loop of `Types.validate` (iteration order models Go's arbitrary
map order; whether an error exists does not depend on it). -/
def typesValidateAux (t : TypesT) : List (String × List TDType) → Except String Unit
  | [] => .ok ()
  | (typeKey, typeArr) :: rest =>
    if typeKey = "" then .error "empty type key"
    else match validateTypeObjs t typeKey typeArr with
      | .error e => .error e
      | .ok _ => typesValidateAux t rest

/-- `Types.validate`. -/
def typesValidate (t : TypesT) : Except String Unit := typesValidateAux t t

/-- `TypedDataDomain.validate`: only the four string fields are consulted
(the chainId check is commented out in the source). -/
def domainValidate (domain : TypedDataDomain) : Except String Unit :=
  if domain.name = "" ∧ domain.version = "" ∧ domain.verifyingContract = "" ∧ domain.salt = "" then
    .error "domain is undefined"
  else .ok ()

/-- `TypedData.validate`: dictionary first, then domain. -/
def tdValidate (typedData : TypedData) : Except String Unit :=
  match typesValidate typedData.types with
  | .error e => .error e
  | .ok _ => domainValidate typedData.domain

/-- The `includes` closure inside `Dependencies`. -/
def includes : List String → String → Bool
  | [], _ => false
  | obj :: rest, str => if obj = str then true else includes rest str

/-- Fuel-driven body of `Dependencies`; see `Dependencies`. The recursion is
on the verbatim field type (`field.Type`), exactly as in the source. -/
def DependenciesF : Nat → TypesT → String → List String → List String
  | 0, _, _, found => found
  | fuel+1, types, primaryType, found =>
    if includes found primaryType then found
    else match lookupTypes types primaryType with
      | none => found
      | some fields =>
        let found1 := found ++ [primaryType]
        fields.foldl
          (fun acc field =>
            (DependenciesF fuel types field.typ acc).foldl
              (fun acc2 dep => if includes acc2 dep then acc2 else acc2 ++ [dep])
              acc)
          found1

/-- `TypedData.Dependencies`. Each nested call first appends a dictionary key
that was not yet in `found`, so the recursion depth never exceeds the number
of dictionary entries; the wrapper fuel makes the cut-off unreachable. -/
def Dependencies (typedData : TypedData) (primaryType : String) (found : List String) : List String :=
  DependenciesF (typedData.types.length + 1) typedData.types primaryType found

/-- Insert into a sorted list of strings (byte-wise lexicographic order:
character order on UTF-8 strings coincides with Go's byte order). -/
def insertSorted (s : String) : List String → List String
  | [] => [s]
  | t :: rest => if s ≤ t then s :: t :: rest else t :: insertSorted s rest

/-- `sort.Strings` (any correct sort yields the same list, since string
comparison is antisymmetric). -/
def sortStrings : List String → List String
  | [] => []
  | s :: rest => insertSorted s (sortStrings rest)

/-- The per-struct part of `EncodeType`: `dep`, `(`, each field as
`type name,`, one byte truncated, `)`. The buffer truncation always removes
the trailing `,` (or, for a field-less struct, the `(`), both ASCII, so the
per-struct formulation agrees with the single-buffer Go code. -/
def encodeStructChunk (typedData : TypedData) (dep : String) : String :=
  dropRightStr
    ((getTypes typedData.types dep).foldl
      (fun buffer obj => buffer ++ obj.typ ++ " " ++ obj.name ++ ",")
      (dep ++ "(")) 1
  ++ ")"

/-- `TypedData.EncodeType` (the result is a byte buffer in Go; all writes are
strings, so it is modelled as the written string — `strBytes` recovers the
bytes). -/
def EncodeType (typedData : TypedData) (primaryType : String) : String :=
  let deps := Dependencies typedData primaryType []
  let deps2 :=
    if 0 < deps.length then primaryType :: sortStrings (deps.drop 1) else deps
  deps2.foldl (fun buffer dep => buffer ++ encodeStructChunk typedData dep) ""

/-- `TypedData.TypeHash`. -/
def TypeHash (keccak : Bytes → Bytes) (typedData : TypedData) (primaryType : String) : Bytes :=
  keccak (strBytes (EncodeType typedData primaryType))

/-- `dataMismatchError` (the Go message also interpolates the value). -/
def dataMismatchError (encType : String) : String :=
  "provided data does not match type " ++ encType

/-- `parseInteger`. -/
def parseInteger (encType : String) (encValue : GoValue) : Except String Int :=
  let signed := startsW encType "int"
  let lengthRes : Except String Int :=
    if encType = "int" || encType = "uint" then .ok 256
    else
      let lengthStr :=
        if startsW encType "uint" then trimPref encType "uint" else trimPref encType "int"
      match atoi lengthStr with
      | none => .error ("invalid size on integer: " ++ lengthStr)
      | some v => .ok v
  match lengthRes with
  | .error e => .error e
  | .ok length =>
    let bRes : Except String Int :=
      match encValue with
      | .vBigInt i => .ok i
      | .vStr s =>
        match hexOrDecimal256 s with
        | none => .error ("invalid hex or decimal integer " ++ s)
        | some i => .ok i
      | .vFloat trunc lossless =>
        if lossless then .ok trunc
        else .error ("invalid float value for type " ++ encType)
      | _ => .error ("invalid integer value for type " ++ encType)
    match bRes with
    | .error e => .error e
    | .ok b =>
      if ((bitLenI b : Int)) > length then .error ("integer larger than " ++ encType)
      else if signed = false ∧ b < 0 then
        .error ("invalid negative value for unsigned type " ++ encType)
      else .ok b

/-- The width-and-sign check tail of `parseInteger`, factored out so that the
reduction of a concrete spelling can be stated once. -/
def intCheck (encType : String) (length : Int) (signed : Bool) (b : Int) : Except String Int :=
  if ((bitLenI b : Int)) > length then .error ("integer larger than " ++ encType)
  else if signed = false ∧ b < 0 then
    .error ("invalid negative value for unsigned type " ++ encType)
  else .ok b

/-- The integer branch of `EncodePrimitiveValue` after a concrete spelling is
reduced: the width check followed by `math.U256Bytes`. -/
def intEncode (encType : String) (length : Int) (signed : Bool) (i : Int) : Except String Bytes :=
  match intCheck encType length signed i with
  | .error e => .error e
  | .ok b => .ok (U256Bytes b)

/-- `TypedData.EncodePrimitiveValue` (the receiver and `depth` are unused in
the source body and kept for shape). -/
def EncodePrimitiveValue (keccak : Bytes → Bytes) (encType : String) (encValue : GoValue)
    (depth : Nat) : Except String Bytes :=
  if encType = "address" then
    match encValue with
    | .vStr s =>
      if isHexAddress s then .ok (List.replicate 12 0 ++ hexToAddressBytes s)
      else .error (dataMismatchError encType)
    | _ => .error (dataMismatchError encType)
  else if encType = "bool" then
    match encValue with
    | .vBool b => if b then .ok (paddedBigBytes 1 32) else .ok (paddedBigBytes 0 32)
    | _ => .error (dataMismatchError encType)
  else if encType = "string" then
    match encValue with
    | .vStr s => .ok (keccak (strBytes s))
    | _ => .error (dataMismatchError encType)
  else if encType = "bytes" then
    match encValue with
    | .vBytes bs => .ok (keccak bs)
    | _ => .error (dataMismatchError encType)
  else if startsW encType "bytes" then
    let lengthStr := trimPref encType "bytes"
    match atoi lengthStr with
    | none => .error ("invalid size on bytes: " ++ lengthStr)
    | some length =>
      if length < 0 ∨ 32 < length then .error "invalid size on bytes"
      else
        match encValue with
        | .vHexBytes bs => .ok (paddedBigBytes (beVal bs) 32)
        | _ => .error (dataMismatchError encType)
  else if startsW encType "int" || startsW encType "uint" then
    match parseInteger encType encValue with
    | .error e => .error e
    | .ok b => .ok (U256Bytes b)
  else .error ("unrecognized type " ++ encType)

/-- Success test for `Except`. -/
def exOk {α : Type} : Except String α → Bool
  | .ok _ => true
  | .error _ => false

mutual

/-- Computable structural size of a `GoValue` (used only to choose a fuel
bound for `EncodeData`). -/
def gvSize : GoValue → Nat
  | .vNil => 1
  | .vStr _ => 1
  | .vBool _ => 1
  | .vBytes _ => 1
  | .vHexBytes _ => 1
  | .vBigInt _ => 1
  | .vFloat _ _ => 1
  | .vArr items => gvSizeL items + 1
  | .vMap entries => gvSizeM entries + 1

/-- Size of a list of values. -/
def gvSizeL : List GoValue → Nat
  | [] => 1
  | v :: rest => gvSize v + gvSizeL rest

/-- Size of a message map. -/
def gvSizeM : List (String × GoValue) → Nat
  | [] => 1
  | (_, v) :: rest => gvSize v + gvSizeM rest

end

/-- Fuel-driven body of `EncodeData`; see `EncodeData`. Fuel is consumed at
each nested `EncodeData` call (struct fields and struct array elements).
Go tests the array case with `encType[len(encType)-1:] == "]"`, which panics
on an empty type string; `endsW` returns false there instead, but the
validation that runs first rejects empty field types, so the divergent input
is unreachable. -/
def EncodeDataF : Nat → (Bytes → Bytes) → TypedData → String → GoMap → Nat → Except String Bytes
  | 0, _, _, _, _, _ => .error "recursion limit exceeded"
  | fuel+1, keccak, typedData, primaryType, data, depth =>
    match tdValidate typedData with
    | .error e => .error e
    | .ok _ =>
      if (getTypes typedData.types primaryType).length < data.length then
        .error "there is extra data provided in the message"
      else
        (getTypes typedData.types primaryType).foldl
          (fun acc field =>
            match acc with
            | .error e => .error e
            | .ok buffer =>
              let encType := field.typ
              let encValue := (lookupGo data field.name).getD GoValue.vNil
              if endsW encType "]" then
                match encValue with
                | .vArr arrayValue =>
                  let parsedType := splitBracketHead encType
                  let arrayRes :=
                    arrayValue.foldl
                      (fun (acc2 : Except String Bytes) item =>
                        match acc2 with
                        | .error e => .error e
                        | .ok arrayBuffer =>
                          if hasKeyT typedData.types parsedType then
                            match item with
                            | .vMap mapValue =>
                              match EncodeDataF fuel keccak typedData parsedType mapValue (depth+1) with
                              | .error e => .error e
                              | .ok encodedData => .ok (arrayBuffer ++ encodedData)
                            | _ => .error (dataMismatchError parsedType)
                          else
                            match EncodePrimitiveValue keccak parsedType item depth with
                            | .error e => .error e
                            | .ok bytesValue => .ok (arrayBuffer ++ bytesValue))
                      (.ok [])
                  match arrayRes with
                  | .error e => .error e
                  | .ok arrayBuffer => .ok (buffer ++ keccak arrayBuffer)
                | _ => .error (dataMismatchError encType)
              else if hasKeyT typedData.types encType then
                match encValue with
                | .vMap mapValue =>
                  match EncodeDataF fuel keccak typedData encType mapValue (depth+1) with
                  | .error e => .error e
                  | .ok encodedData => .ok (buffer ++ keccak encodedData)
                | _ => .error (dataMismatchError encType)
              else
                match EncodePrimitiveValue keccak encType encValue depth with
                | .error e => .error e
                | .ok byteValue => .ok (buffer ++ byteValue))
          (.ok (TypeHash keccak typedData primaryType))

/-- `TypedData.EncodeData`. Every nested call receives a strict subvalue of
`data` (a `vMap` payload inside it), so the recursion depth is below
`gvSizeM data + 1` and the fuel cut-off is unreachable. -/
def EncodeData (keccak : Bytes → Bytes) (typedData : TypedData) (primaryType : String)
    (data : GoMap) (depth : Nat) : Except String Bytes :=
  EncodeDataF (gvSizeM data + 1) keccak typedData primaryType data depth

/-- `TypedData.HashStruct`. -/
def HashStruct (keccak : Bytes → Bytes) (typedData : TypedData) (primaryType : String)
    (data : GoMap) : Except String Bytes :=
  match EncodeData keccak typedData primaryType data 1 with
  | .error e => .error e
  | .ok encodedData => .ok (keccak encodedData)

/-- Go struct `ValidatorData` (`common.Address` is exactly 20 bytes; theorems
about it carry that as a hypothesis). -/
structure ValidatorData where
  address : Bytes
  message : Bytes

/-- `SignTextValidator`: builds `"\x19\x00" ++ address ++ message` (Go strings
are byte sequences; `Sprintf` with `%s` concatenates the bytes verbatim) and
returns the keccak-256 digest together with the pre-image. -/
def SignTextValidator (keccak : Bytes → Bytes) (validatorData : ValidatorData) : Bytes × Bytes :=
  let msg := [0x19, 0x00] ++ validatorData.address ++ validatorData.message
  (keccak msg, msg)

/-- `types.Header`, reduced to the one field the helper inspects; the other
header fields are consumed only by the external clique functions, which are
taken as parameters of the helper. -/
structure Header where
  extra : Bytes

/-- `cliqueHeaderHashAndRlp`. `clique.CliqueRLP` and `clique.SealHash` are
external collaborators passed as parameters; the Go triple
`(hash, rlp, err)` becomes `Except` of the pair `(hash, rlp)`. -/
def cliqueHeaderHashAndRlp (cliqueRLP sealHash : Header → Bytes) (header : Header) :
    Except String (Bytes × Bytes) :=
  if header.extra.length < 65 then
    .error ("clique header extradata too short, " ++ Nat.repr header.extra.length ++ " < 65")
  else .ok (sealHash header, cliqueRLP header)

/-- The set of type spellings `EncodePrimitiveValue` can accept: the exact
scalars, `bytesN` whose decimal suffix parses with `0 ≤ N ≤ 32`, and
`intN`/`uintN` whose suffix parses as an integer (plus bare `int`/`uint`).
This is the amended registry of claim C5: it strictly contains the scalar
part of `isPrimitiveTypeValid` (e.g. `uint24` and `bytes0` are accepted). -/
def extendedAccept (t : String) : Bool :=
  t = "address" || t = "bool" || t = "string" || t = "bytes" ||
  (startsW t "bytes" &&
    (match atoi (trimPref t "bytes") with
     | none => false
     | some l => decide (0 ≤ l) && decide (l ≤ 32))) ||
  ((startsW t "int" || startsW t "uint") &&
    (t = "int" || t = "uint" ||
      (atoi (if startsW t "uint" then trimPref t "uint" else trimPref t "int")).isSome))

/-- A stand-in keccak-256 used to state closed facts that do not depend on
the hash function. -/
def keccak0 : Bytes → Bytes := fun _ => []

/-- A dictionary in which a struct is referenced only through an array type:
`Mail` has one field `to` of type `Person[]`, and `Person` is declared. -/
def mailArrayTypes : TypesT :=
  [("Mail", [⟨"to", "Person[]"⟩]), ("Person", [⟨"name", "string"⟩])]

/-- A `TypedData` around `mailArrayTypes` (domain populated; message empty —
only the dictionary matters to `EncodeType`). -/
def mailArrayTD : TypedData :=
  ⟨mailArrayTypes, "Mail", ⟨"Ether Mail", "1", none, "", ""⟩, []⟩

/-- A minimal valid document: one struct `A` with one `string` field `x`. -/
def tdOneField : TypedData :=
  ⟨[("A", [⟨"x", "string"⟩])], "A", ⟨"n", "", none, "", ""⟩, []⟩

/-- A document whose domain has only `chainId` populated (all four string
fields empty). -/
def tdChainIdOnly : TypedData :=
  ⟨[("A", [⟨"x", "string"⟩])], "A", ⟨"", "", some 1, "", ""⟩, []⟩

/-- A document whose domain is entirely empty. -/
def tdNoDomain : TypedData :=
  ⟨[("A", [⟨"x", "string"⟩])], "A", ⟨"", "", none, "", ""⟩, []⟩

/-- A stand-in for the external `clique.CliqueRLP` satisfying the spec shape
(non-empty RLP). -/
def cliqueRLP0 : Header → Bytes := fun _ => [0xf8]

/-- A stand-in for the external `clique.SealHash(..).Bytes()` satisfying the
spec shape (32-byte digest). -/
def sealHash0 : Header → Bytes := fun _ => List.replicate 32 0

/-- A header whose extra-data field has exactly 64 bytes. -/
def header64 : Header := ⟨List.replicate 64 0⟩

/-- The fuel of `bitLenAux` is irrelevant once it exceeds the argument. -/
theorem bitLenAux_irrel : ∀ f g n, n < f → n < g → bitLenAux f n = bitLenAux g n := by
  intro f
  induction f with
  | zero => intro g n h _; omega
  | succ f ih =>
    intro g n hf hg
    cases g with
    | zero => omega
    | succ g =>
      simp only [bitLenAux]
      by_cases h0 : n = 0
      · simp [h0]
      · have hn : 0 < n := Nat.pos_of_ne_zero h0
        have hd : n / 2 < n := Nat.div_lt_self hn (by norm_num)
        simp only [h0, if_false]
        rw [ih g (n / 2) (by omega) (by omega)]

/-- Unfolding equation for `bitLen`. -/
theorem bitLen_unfold (n : Nat) : bitLen n = if n = 0 then 0 else bitLen (n / 2) + 1 := by
  have h1 : bitLen n = if n = 0 then 0 else bitLenAux n (n / 2) + 1 := rfl
  rw [h1]
  by_cases h0 : n = 0
  · simp [h0]
  · have hn : 0 < n := Nat.pos_of_ne_zero h0
    have hd : n / 2 < n := Nat.div_lt_self hn (by norm_num)
    simp only [h0, if_false]
    unfold bitLen
    rw [bitLenAux_irrel n (n / 2 + 1) (n / 2) (by omega) (by omega)]

/-- Any number is below `2 ^` its bit length. -/
theorem lt_two_pow_bitLen (n : Nat) : n < 2 ^ bitLen n := by
  induction n using Nat.strong_induction_on with
  | _ n ih =>
    rw [bitLen_unfold]
    by_cases h0 : n = 0
    · simp [h0]
    · have hn : 0 < n := Nat.pos_of_ne_zero h0
      have hd : n / 2 < n := Nat.div_lt_self hn (by norm_num)
      have h1 := ih (n / 2) hd
      simp only [h0, if_false]
      have h2 : 2 ^ (bitLen (n / 2) + 1) = 2 * 2 ^ bitLen (n / 2) := by
        rw [pow_succ]; ring
      omega

/-- A positive number has a positive bit length. -/
theorem bitLen_pos {n : Nat} (h : n ≠ 0) : 0 < bitLen n := by
  rw [bitLen_unfold]; simp [h]

/-- A nonzero number reaches `2 ^ (bitLen - 1)`. -/
theorem two_pow_bitLen_pred_le (n : Nat) (h : n ≠ 0) : 2 ^ (bitLen n - 1) ≤ n := by
  induction n using Nat.strong_induction_on with
  | _ n ih =>
    rw [bitLen_unfold]
    simp only [h, if_false]
    by_cases h2 : n / 2 = 0
    · have hn : 0 < n := Nat.pos_of_ne_zero h
      rw [h2]
      norm_num [show bitLen 0 = 0 from rfl]
      omega
    · have hn : 0 < n := Nat.pos_of_ne_zero h
      have hd : n / 2 < n := Nat.div_lt_self hn (by norm_num)
      have h1 := ih (n / 2) hd h2
      have hp := bitLen_pos h2
      have h3 : 2 ^ bitLen (n / 2) = 2 * 2 ^ (bitLen (n / 2) - 1) := by
        rw [← pow_succ']
        congr 1
        omega
      simp only [Nat.add_sub_cancel]
      omega

/-- `bitLen n ≤ k` iff `n < 2 ^ k`. -/
theorem bitLen_le_iff {n k : Nat} : bitLen n ≤ k ↔ n < 2 ^ k := by
  constructor
  · intro h
    exact lt_of_lt_of_le (lt_two_pow_bitLen n) (Nat.pow_le_pow_right (by norm_num) h)
  · intro h
    by_cases h0 : n = 0
    · subst h0; simp [bitLen_unfold]
    · by_contra hc
      have hk : k ≤ bitLen n - 1 := by omega
      have := two_pow_bitLen_pred_le n h0
      have h2 : 2 ^ k ≤ 2 ^ (bitLen n - 1) := Nat.pow_le_pow_right (by norm_num) hk
      omega

/-- The fuel of `beBytesAux` is irrelevant once it exceeds the argument. -/
theorem beBytesAux_irrel : ∀ f g n, n < f → n < g → beBytesAux f n = beBytesAux g n := by
  intro f
  induction f with
  | zero => intro g n h _; omega
  | succ f ih =>
    intro g n hf hg
    cases g with
    | zero => omega
    | succ g =>
      simp only [beBytesAux]
      by_cases h0 : n = 0
      · simp [h0]
      · have hn : 0 < n := Nat.pos_of_ne_zero h0
        have hd : n / 256 < n := Nat.div_lt_self hn (by norm_num)
        simp only [h0, if_false]
        rw [ih g (n / 256) (by omega) (by omega)]

/-- Unfolding equation for `beBytes`. -/
theorem beBytes_unfold (n : Nat) :
    beBytes n = if n = 0 then [] else beBytes (n / 256) ++ [n % 256] := by
  have h1 : beBytes n = if n = 0 then [] else beBytesAux n (n / 256) ++ [n % 256] := rfl
  rw [h1]
  by_cases h0 : n = 0
  · simp [h0]
  · have hn : 0 < n := Nat.pos_of_ne_zero h0
    have hd : n / 256 < n := Nat.div_lt_self hn (by norm_num)
    simp only [h0, if_false]
    unfold beBytes
    rw [beBytesAux_irrel n (n / 256 + 1) (n / 256) (by omega) (by omega)]

/-- `beVal` of a one-byte extension. -/
theorem beVal_append_one (xs : Bytes) (b : Nat) : beVal (xs ++ [b]) = 256 * beVal xs + b := by
  unfold beVal
  rw [List.foldl_append]
  simp [Nat.mul_comm]

/-- `beVal` inverts `beBytes`. -/
theorem beVal_beBytes (n : Nat) : beVal (beBytes n) = n := by
  induction n using Nat.strong_induction_on with
  | _ n ih =>
    rw [beBytes_unfold]
    by_cases h0 : n = 0
    · simp [h0, beVal]
    · have hn : 0 < n := Nat.pos_of_ne_zero h0
      have hd : n / 256 < n := Nat.div_lt_self hn (by norm_num)
      simp only [h0, if_false]
      rw [beVal_append_one, ih (n / 256) hd]
      omega

/-- Leading zero bytes do not change `beVal`. -/
theorem beVal_replicate_zero (j : Nat) (bs : Bytes) :
    beVal (List.replicate j 0 ++ bs) = beVal bs := by
  unfold beVal
  rw [List.foldl_append]
  have : List.foldl (fun a b => a * 256 + b) 0 (List.replicate j 0) = 0 := by
    induction j with
    | zero => rfl
    | succ j ih => simpa [List.replicate_succ] using ih
  rw [this]

/-- `beBytes` of a number below `256 ^ k` has at most `k` bytes. -/
theorem beBytes_length_le : ∀ (k n : Nat), n < 256 ^ k → (beBytes n).length ≤ k := by
  intro k
  induction k with
  | zero =>
    intro n h
    have : n = 0 := by simpa using h
    subst this
    simp [beBytes_unfold]
  | succ k ih =>
    intro n h
    rw [beBytes_unfold]
    by_cases h0 : n = 0
    · simp [h0]
    · simp only [h0, if_false, List.length_append, List.length_cons, List.length_nil]
      have hdiv : n / 256 < 256 ^ k := by
        rw [Nat.div_lt_iff_lt_mul (by norm_num : 0 < 256)]
        calc n < 256 ^ (k + 1) := h
        _ = 256 ^ k * 256 := by rw [pow_succ]
      have := ih (n / 256) hdiv
      omega

/-- `beBytes` of a number at least `256 ^ k` has more than `k` bytes. -/
theorem beBytes_length_ge : ∀ (k n : Nat), 256 ^ k ≤ n → k + 1 ≤ (beBytes n).length := by
  intro k
  induction k with
  | zero =>
    intro n h
    have h0 : n ≠ 0 := by intro h'; subst h'; simp at h
    rw [beBytes_unfold]
    simp [h0]
  | succ k ih =>
    intro n h
    have h0 : n ≠ 0 := by
      intro h'; subst h'
      have := Nat.pos_pow_of_pos (k+1) (by norm_num : 0 < 256)
      omega
    rw [beBytes_unfold]
    simp only [h0, if_false, List.length_append, List.length_cons, List.length_nil]
    have hdiv : 256 ^ k ≤ n / 256 := by
      rw [Nat.le_div_iff_mul_le (by norm_num : 0 < 256)]
      calc 256 ^ k * 256 = 256 ^ (k + 1) := by rw [pow_succ]
      _ ≤ n := h
    have := ih (n / 256) hdiv
    omega

/-- `256 ^ 32 = 2 ^ 256`. -/
theorem pow256_32 : (256 : Nat) ^ 32 = 2 ^ 256 := by
  norm_num [show (256 : Nat) = 2 ^ 8 from rfl, ← pow_mul]

/-- `256 ^ 31 = 2 ^ 248`. -/
theorem pow256_31 : (256 : Nat) ^ 31 = 2 ^ 248 := by
  norm_num [show (256 : Nat) = 2 ^ 8 from rfl, ← pow_mul]

/-- A 256-bit value is padded to exactly 32 bytes. -/
theorem paddedBigBytes_length (m : Nat) (h : m < 2 ^ 256) :
    (paddedBigBytes m 32).length = 32 := by
  unfold paddedBigBytes
  have hle : (beBytes m).length ≤ 32 := beBytes_length_le 32 m (by rw [pow256_32]; exact h)
  by_cases hc : 32 ≤ bitLen m / 8
  · have hbl : 256 ≤ bitLen m := by omega
    have hm0 : m ≠ 0 := by
      intro h'; subst h'
      rw [show bitLen 0 = 0 by rw [bitLen_unfold]; simp] at hbl
      omega
    have h255 : 2 ^ 255 ≤ m := by
      have := two_pow_bitLen_pred_le m hm0
      have h2 : 2 ^ 255 ≤ 2 ^ (bitLen m - 1) := Nat.pow_le_pow_right (by norm_num) (by omega)
      omega
    have hge : 32 ≤ (beBytes m).length := by
      have := beBytes_length_ge 31 m (by rw [pow256_31]; calc (2:Nat)^248 ≤ 2^255 := Nat.pow_le_pow_right (by norm_num) (by norm_num)
        _ ≤ m := h255)
      omega
    simp only [hc, if_true]
    omega
  · simp only [hc, if_false]
    simp only [List.length_append, List.length_replicate]
    omega

/-- Padding preserves the big-endian value at width 32. -/
theorem paddedBigBytes_val (m : Nat) : beVal (paddedBigBytes m 32) = m := by
  unfold paddedBigBytes
  by_cases hc : 32 ≤ bitLen m / 8
  · simp only [hc, if_true, beVal_beBytes]
  · simp only [hc, if_false, beVal_replicate_zero, beVal_beBytes]

/-- `u256` lands below `2 ^ 256`. -/
theorem u256_lt (b : Int) : u256 b < 2 ^ 256 := by
  unfold u256
  have h1 : 0 ≤ b.emod (2 ^ 256) := Int.emod_nonneg b (by positivity)
  have h2 : b.emod (2 ^ 256) < 2 ^ 256 := Int.emod_lt_of_pos b (by positivity)
  omega

/-- `U256Bytes` is a 32-byte word carrying the value mod `2 ^ 256`. -/
theorem U256Bytes_spec (b : Int) :
    (U256Bytes b).length = 32 ∧ beVal (U256Bytes b) = u256 b :=
  ⟨paddedBigBytes_length _ (u256_lt b), paddedBigBytes_val _⟩

/-- `parseInteger` rejects the nil interface value for every type spelling. -/
theorem parseInteger_vNil (t : String) : exOk (parseInteger t .vNil) = false := by
  unfold parseInteger
  split
  · rfl
  · split
    · cases ha : atoi (trimPref t "uint") with
      | none => simp [ha, exOk]
      | some v => simp [ha, exOk]
    · cases ha : atoi (trimPref t "int") with
      | none => simp [ha, exOk]
      | some v => simp [ha, exOk]

/-- `EncodePrimitiveValue` rejects the nil interface value (hence a missing
message field) for every type spelling. -/
theorem encodePrimitiveValue_vNil (keccak : Bytes → Bytes) (t : String) (depth : Nat) :
    exOk (EncodePrimitiveValue keccak t .vNil depth) = false := by
  unfold EncodePrimitiveValue
  split
  · rfl
  · split
    · rfl
    · split
      · rfl
      · split
        · rfl
        · split
          · cases ha : atoi (trimPref t "bytes") with
            | none => simp [ha, exOk]
            | some v => simp only [ha]; split <;> simp [exOk]
          · split
            · cases hp : parseInteger t GoValue.vNil with
              | error e => simp [hp, exOk]
              | ok b =>
                have hfalse := parseInteger_vNil t
                rw [hp] at hfalse
                simp [exOk] at hfalse
            · rfl

/-- A fold whose step absorbs errors keeps an error accumulator. -/
theorem foldl_err_absorb {A B : Type} (f : Except String A → B → Except String A)
    (h1 : ∀ e b, f (.error e) b = .error e) :
    ∀ (l : List B) (e : String), l.foldl f (.error e) = .error e := by
  intro l
  induction l with
  | nil => intro e; rfl
  | cons b rest ih =>
    intro e
    rw [List.foldl_cons, h1]
    exact ih e

/-- A fold whose step absorbs errors and fails on some list element fails. -/
theorem foldl_err_hit {A B : Type} (f : Except String A → B → Except String A)
    (h1 : ∀ e b, f (.error e) b = .error e)
    {x : B} {l : List B} (hx : x ∈ l)
    (h2 : ∀ a, exOk (f (.ok a) x) = false) :
    ∀ init, exOk (l.foldl f init) = false := by
  obtain ⟨l1, l2, rfl⟩ := List.append_of_mem hx
  intro init
  rw [List.foldl_append, List.foldl_cons]
  cases hacc : l1.foldl f init with
  | error e =>
    rw [h1, foldl_err_absorb f h1]
    rfl
  | ok a =>
    cases hfx : f (.ok a) x with
    | error e =>
      rw [foldl_err_absorb f h1]
      rfl
    | ok a2 =>
      have hh := h2 a
      rw [hfx] at hh
      simp [exOk] at hh

/-- `EncodeData` fails whenever the dictionary-and-domain validation fails. -/
theorem encodeData_validate_err (keccak : Bytes → Bytes) (td : TypedData) (pt : String)
    (data : GoMap) (depth : Nat) (h : exOk (tdValidate td) = false) :
    exOk (EncodeData keccak td pt data depth) = false := by
  unfold EncodeData
  simp only [EncodeDataF]
  cases htv : tdValidate td with
  | error e => simp [htv, exOk]
  | ok u => rw [htv] at h; simp [exOk] at h

/-- `EncodeData` fails when the message has more entries than declared fields. -/
theorem encodeData_extra (keccak : Bytes → Bytes) (td : TypedData) (pt : String)
    (data : GoMap) (depth : Nat)
    (hlt : (getTypes td.types pt).length < data.length) :
    exOk (EncodeData keccak td pt data depth) = false := by
  unfold EncodeData
  simp only [EncodeDataF]
  cases htv : tdValidate td with
  | error e => simp [exOk]
  | ok u => simp [hlt, exOk]

/-- `EncodeData` fails when the message omits any declared field: the absent
value reads back as the nil interface, which every branch rejects. -/
theorem encodeData_missing (keccak : Bytes → Bytes) (td : TypedData) (pt : String)
    (data : GoMap) (depth : Nat) (field : TDType)
    (hmem : field ∈ getTypes td.types pt)
    (hlook : lookupGo data field.name = none) :
    exOk (EncodeData keccak td pt data depth) = false := by
  unfold EncodeData
  simp only [EncodeDataF]
  cases htv : tdValidate td with
  | error e => simp [exOk]
  | ok u =>
    by_cases hlt : (getTypes td.types pt).length < data.length
    · simp [hlt, exOk]
    · simp only [hlt, if_false]
      refine foldl_err_hit _ (fun e b => rfl) hmem (fun a => ?_) _
      simp only [hlook, Option.getD]
      split
      · rfl
      · split
        · rfl
        · cases hp : EncodePrimitiveValue keccak field.typ GoValue.vNil depth with
          | error e => simp [hp, exOk]
          | ok bv =>
            have hfalse := encodePrimitiveValue_vNil keccak field.typ depth
            rw [hp] at hfalse
            simp [exOk] at hfalse

/-- Success of `parseInteger` forces a parseable integer spelling. -/
theorem parseInteger_ok_shape (t : String) (v : GoValue) (b : Int)
    (h : parseInteger t v = .ok b) :
    t = "int" ∨ t = "uint" ∨
      (atoi (if startsW t "uint" then trimPref t "uint" else trimPref t "int")).isSome = true := by
  by_cases hti : t = "int"
  · exact Or.inl hti
  by_cases htu : t = "uint"
  · exact Or.inr (Or.inl htu)
  refine Or.inr (Or.inr ?_)
  unfold parseInteger at h
  simp only [hti, htu] at h
  by_cases hsu : startsW t "uint"
  · simp only [hsu, if_true] at h ⊢
    cases ha : atoi (trimPref t "uint") with
    | none => rw [ha] at h; simp at h
    | some l => simp
  · simp only [hsu, if_false, Bool.false_eq_true] at h ⊢
    cases ha : atoi (trimPref t "int") with
    | none => rw [ha] at h; simp at h
    | some l => simp

/-- Spelled-out success set: `EncodePrimitiveValue` succeeds only on the
extended registry `extendedAccept`. -/
theorem encodePrimitiveValue_ok_extended (keccak : Bytes → Bytes) (t : String) (v : GoValue)
    (depth : Nat) (w : Bytes) (h : EncodePrimitiveValue keccak t v depth = .ok w) :
    extendedAccept t = true := by
  by_cases h1 : t = "address"
  · simp [extendedAccept, h1]
  by_cases h2 : t = "bool"
  · simp [extendedAccept, h2]
  by_cases h3 : t = "string"
  · simp [extendedAccept, h3]
  by_cases h4 : t = "bytes"
  · simp [extendedAccept, h4]
  unfold EncodePrimitiveValue at h
  simp only [h1, h2, h3, h4, if_false] at h
  by_cases h5 : startsW t "bytes"
  · simp only [h5, if_true] at h
    cases ha : atoi (trimPref t "bytes") with
    | none => rw [ha] at h; simp at h
    | some l =>
      rw [ha] at h
      by_cases hr : l < 0 ∨ 32 < l
      · simp [hr] at h
      · simp only [extendedAccept, h5, ha]
        push_neg at hr
        simp [h1, h2, h3, h4, hr.1, hr.2]
  · simp only [h5, Bool.false_eq_true, if_false] at h
    by_cases h6 : (startsW t "int" || startsW t "uint") = true
    · simp only [h6, if_true] at h
      cases hp : parseInteger t v with
      | error e => rw [hp] at h; simp at h
      | ok b =>
        have hshape := parseInteger_ok_shape t v b hp
        simp only [extendedAccept, h1, h2, h3, h4, h5, h6]
        rcases hshape with hh | hh | hh <;> simp [hh]
    · simp only [h6, if_false] at h
      simp at h

/-- Behaviour of the width-check-and-encode tail for a declared width `N`. -/
theorem intEncode_spec (t : String) (N : Nat) (signed : Bool) (i : Int) :
    (bitLenI i ≤ N → (signed = true ∨ 0 ≤ i) → intEncode t (N : Int) signed i = .ok (U256Bytes i)) ∧
    (N < bitLenI i → exOk (intEncode t (N : Int) signed i) = false) ∧
    (signed = false → i < 0 → exOk (intEncode t (N : Int) signed i) = false) := by
  refine ⟨?_, ?_, ?_⟩
  · intro h1 h2
    have hc1 : ¬ ((bitLenI i : Int) > (N : Int)) := by
      simp only [gt_iff_lt, not_lt]
      exact_mod_cast h1
    have hc2 : ¬ (signed = false ∧ i < 0) := by
      rcases h2 with h | h
      · simp [h]
      · rintro ⟨_, hlt⟩; omega
    simp [intEncode, intCheck, hc1, hc2]
  · intro h
    have hc1 : ((bitLenI i : Int) > (N : Int)) := by exact_mod_cast h
    simp [intEncode, intCheck, hc1, exOk]
  · intro hs hneg
    by_cases hc1 : ((bitLenI i : Int) > (N : Int))
    · simp [intEncode, intCheck, hc1, exOk]
    · simp [intEncode, intCheck, hc1, hs, hneg, exOk]

/-- `u256` of a small natural number is itself. -/
theorem u256_ofNat_small (n : Nat) (h : n < 2 ^ 256) : u256 (n : Int) = n := by
  show (((n : Int) % (2 ^ 256)).toNat) = n
  rw [Int.emod_eq_of_lt (by positivity) (by exact_mod_cast h)]
  simp

/-- The concrete 32-byte word for 255. -/
theorem U256Bytes_255 : U256Bytes 255 = List.replicate 31 0 ++ [255] := by
  unfold U256Bytes
  rw [show ((255 : Int) = ((255 : Nat) : Int)) from rfl, u256_ofNat_small 255 (by norm_num)]
  decide

/-- C2: for every `intN`/`uintN` with N in 8,16,32,64,128,256 (bare `int` and
`uint` meaning 256), a big-integer value encodes to the 32-byte big-endian
two's-complement word exactly when its bit length fits and it is non-negative
under an unsigned type; the width or sign violations fail. In particular
`uint8` rejects 256 and encodes 255 to a 32-byte word ending in `0xff`. -/
theorem c2_int_width_law (keccak : Bytes → Bytes) (t : String) (N : Nat) (signed : Bool)
    (hspell :
      (t = "int" ∧ N = 256 ∧ signed = true) ∨ (t = "uint" ∧ N = 256 ∧ signed = false) ∨
      (t = "int8" ∧ N = 8 ∧ signed = true) ∨ (t = "uint8" ∧ N = 8 ∧ signed = false) ∨
      (t = "int16" ∧ N = 16 ∧ signed = true) ∨ (t = "uint16" ∧ N = 16 ∧ signed = false) ∨
      (t = "int32" ∧ N = 32 ∧ signed = true) ∨ (t = "uint32" ∧ N = 32 ∧ signed = false) ∨
      (t = "int64" ∧ N = 64 ∧ signed = true) ∨ (t = "uint64" ∧ N = 64 ∧ signed = false) ∨
      (t = "int128" ∧ N = 128 ∧ signed = true) ∨ (t = "uint128" ∧ N = 128 ∧ signed = false) ∨
      (t = "int256" ∧ N = 256 ∧ signed = true) ∨ (t = "uint256" ∧ N = 256 ∧ signed = false))
    (i : Int) (depth : Nat) :
    (bitLenI i ≤ N → (signed = true ∨ 0 ≤ i) →
      EncodePrimitiveValue keccak t (.vBigInt i) depth = .ok (U256Bytes i) ∧
      (U256Bytes i).length = 32 ∧ beVal (U256Bytes i) = (i.emod (2 ^ 256)).toNat) ∧
    (N < bitLenI i → exOk (EncodePrimitiveValue keccak t (.vBigInt i) depth) = false) ∧
    (signed = false → i < 0 → exOk (EncodePrimitiveValue keccak t (.vBigInt i) depth) = false) ∧
    exOk (EncodePrimitiveValue keccak "uint8" (.vBigInt 256) depth) = false ∧
    EncodePrimitiveValue keccak "uint8" (.vBigInt 255) depth = .ok (U256Bytes 255) ∧
    (U256Bytes 255).length = 32 ∧ (U256Bytes 255).getLast? = some 255 := by
  have hred : EncodePrimitiveValue keccak t (.vBigInt i) depth = intEncode t (N : Int) signed i := by
    rcases hspell with hs | hs | hs | hs | hs | hs | hs | hs | hs | hs | hs | hs | hs | hs <;>
      obtain ⟨rfl, rfl, rfl⟩ := hs <;> rfl
  have hs := intEncode_spec t N signed i
  rw [hred]
  refine ⟨fun a b => ⟨hs.1 a b, (U256Bytes_spec i).1, (U256Bytes_spec i).2⟩,
    hs.2.1, hs.2.2, rfl, rfl, (U256Bytes_spec 255).1, ?_⟩
  rw [U256Bytes_255]
  decide

/-- C2 witness at `uint8` and 255. -/
theorem c2_int_width_law_witness :
    bitLenI 255 ≤ 8 ∧
    (EncodePrimitiveValue keccak0 "uint8" (.vBigInt 255) 1 = .ok (U256Bytes 255) ∧
      (U256Bytes 255).length = 32 ∧ beVal (U256Bytes 255) = ((255 : Int).emod (2 ^ 256)).toNat) :=
  ⟨by decide,
    (c2_int_width_law keccak0 "uint8" 8 false (by decide) 255 1).1 (by decide) (Or.inr (by decide))⟩



/-- C1: evaluation at the failing input. `Person` is declared and is the
stripped base type of the field type `Person[]` of `Mail`, yet
`EncodeType(Mail)` omits the `Person` signature entirely, because
`Dependencies` recurses on the verbatim field type. The claim (and EIP-712)
require `"Mail(Person[] to)Person(string name)"`. -/
theorem c1_array_dependency_dropped :
    EncodeType mailArrayTD "Mail" = "Mail(Person[] to)" ∧
    (lookupTypes mailArrayTD.types "Person").isSome = true ∧
    typeNameOf "Person[]" = "Person" ∧
    exOk (tdValidate mailArrayTD) = true ∧
    "Mail(Person[] to)" ≠ "Mail(Person[] to)Person(string name)" := by
  refine ⟨by decide, by decide, by decide, by decide, by decide⟩

/-- C3: evaluation at the failing input. For `bytes2` with the one-byte value
`0x01`, the source emits 31 zero bytes followed by `0x01` (big-integer
reinterpretation, value in the low-order bytes), not `0x01` followed by 31
zeros as the claim requires. -/
theorem c3_bytesN_left_pads :
    EncodePrimitiveValue keccak0 "bytes2" (.vHexBytes [1]) 1 = .ok (List.replicate 31 0 ++ [1]) ∧
    List.replicate 31 0 ++ [1] ≠ [1] ++ List.replicate 31 (0 : Nat) := by
  exact ⟨rfl, by decide⟩

/-- C4 counterexample: `bytes1` accepts a two-byte value (the claim says any
value longer than N bytes must fail with a range error). -/
theorem c4_counterexample :
    EncodePrimitiveValue keccak0 "bytes1" (.vHexBytes [1, 2]) 1 =
      .ok (List.replicate 30 0 ++ [1, 2]) := rfl

/-- C4 (amended): for every `bytesN` with N in [1,32], `EncodePrimitiveValue`
performs no length check against N — every hex byte sequence succeeds and is
encoded as `PaddedBigBytes(SetBytes(v), 32)`. -/
theorem c4_bytesN_no_length_check (keccak : Bytes → Bytes) (N : Nat) (bs : Bytes) (depth : Nat)
    (h1 : 1 ≤ N) (h2 : N ≤ 32) :
    EncodePrimitiveValue keccak ("bytes" ++ Nat.repr N) (.vHexBytes bs) depth =
      .ok (paddedBigBytes (beVal bs) 32) := by
  interval_cases N <;> rfl

/-- C4 witness at `bytes1` with a two-byte value. -/
theorem c4_bytesN_no_length_check_witness :
    (1 : Nat) ≤ 1 ∧ (1 : Nat) ≤ 32 ∧
    EncodePrimitiveValue keccak0 ("bytes" ++ Nat.repr 1) (.vHexBytes [1, 2]) 1 =
      .ok (paddedBigBytes (beVal [1, 2]) 32) :=
  ⟨by decide, by decide, c4_bytesN_no_length_check keccak0 1 [1, 2] 1 (by decide) (by decide)⟩

/-- C5 counterexample: `uint24` is outside the registry yet
`EncodePrimitiveValue` accepts it (value 0), and `bytes0` likewise. -/
theorem c5_counterexample :
    isPrimitiveTypeValid "uint24" = false ∧
    exOk (EncodePrimitiveValue keccak0 "uint24" (.vBigInt 0) 1) = true ∧
    isPrimitiveTypeValid "bytes0" = false ∧
    exOk (EncodePrimitiveValue keccak0 "bytes0" (.vHexBytes [1]) 1) = true := by
  refine ⟨by decide, rfl, by decide, rfl⟩

/-- C5 (amended): `EncodePrimitiveValue` succeeds only on the extended
registry `extendedAccept` (exact scalars, `bytesN` with parseable N in
[0,32], `intN`/`uintN` with any parseable suffix); every spelling outside it
fails for every value. -/
theorem c5_primitive_closure_extended (keccak : Bytes → Bytes) (t : String) (v : GoValue)
    (depth : Nat) (w : Bytes) (h : EncodePrimitiveValue keccak t v depth = .ok w) :
    extendedAccept t = true :=
  encodePrimitiveValue_ok_extended keccak t v depth w h

/-- C5 witness at `bool`. -/
theorem c5_primitive_closure_extended_witness : extendedAccept "bool" = true :=
  c5_primitive_closure_extended keccak0 "bool" (.vBool true) 1 (paddedBigBytes 1 32) rfl



/-- C6 counterexample: the message `{}` omits the declared `string` field `x`
of struct `A` in a fully valid document; the claim says encoding succeeds
with a zero word, but `EncodeData` fails (nil value, type mismatch). -/
theorem c6_counterexample :
    exOk (tdValidate tdOneField) = true ∧
    exOk (EncodeData keccak0 tdOneField "A" [] 1) = false :=
  ⟨by decide, encodeData_missing keccak0 tdOneField "A" [] 1 ⟨"x", "string"⟩ (by decide) rfl⟩

/-- C6 (amended): a message with more entries than declared fields is
rejected, and a message omitting any declared field also fails (the absent
value reads back as nil, which every encoder branch rejects) — it is not
encoded as a zero value. -/
theorem c6_extra_and_missing (keccak : Bytes → Bytes) (typedData : TypedData)
    (primaryType : String) (data : GoMap) (depth : Nat) :
    ((data.map Prod.fst).Nodup →
      (getTypes typedData.types primaryType).length < data.length →
      exOk (EncodeData keccak typedData primaryType data depth) = false) ∧
    (∀ field : TDType, field ∈ getTypes typedData.types primaryType →
      lookupGo data field.name = none →
      exOk (EncodeData keccak typedData primaryType data depth) = false) :=
  ⟨fun _ hlt => encodeData_extra keccak typedData primaryType data depth hlt,
   fun field hmem hlook => encodeData_missing keccak typedData primaryType data depth field hmem hlook⟩

/-- C6 witness: two extra entries against one declared field, and a missing
field, both on concrete documents. -/
theorem c6_extra_and_missing_witness :
    exOk (EncodeData keccak0 tdOneField "A" [("p", .vStr "a"), ("q", .vStr "b")] 1) = false ∧
    exOk (EncodeData keccak0 tdOneField "A" [("y", .vStr "a")] 1) = false :=
  ⟨(c6_extra_and_missing keccak0 tdOneField "A" [("p", .vStr "a"), ("q", .vStr "b")] 1).1
      (by decide) (by decide),
   (c6_extra_and_missing keccak0 tdOneField "A" [("y", .vStr "a")] 1).2 ⟨"x", "string"⟩
      (by decide) rfl⟩

/-- C7 counterexample: a domain whose only populated field is `chainId`
fails validation ("domain is undefined"), although the claim says any one
populated field of the five passes. -/
theorem c7_counterexample :
    tdChainIdOnly.domain.chainId = some 1 ∧
    exOk (domainValidate tdChainIdOnly.domain) = false := ⟨rfl, by decide⟩

/-- C7 (amended): domain validation fails exactly when the four string
fields (name, version, verifyingContract, salt) are all empty; `chainId` is
not consulted. -/
theorem c7_domain_validation (domain : TypedDataDomain) :
    exOk (domainValidate domain) = true ↔
      (domain.name ≠ "" ∨ domain.version ≠ "" ∨
        domain.verifyingContract ≠ "" ∨ domain.salt ≠ "") := by
  unfold domainValidate
  split
  · rename_i h
    simp only [exOk]
    constructor
    · intro hh; exact absurd hh (by simp)
    · intro hh
      rcases hh with hh | hh | hh | hh <;> exact absurd (by tauto) hh
  · rename_i h
    simp only [exOk, true_iff]
    by_contra hc
    push_neg at hc
    exact h ⟨hc.1, hc.2.1, hc.2.2.1, hc.2.2.2⟩

/-- C8: the validator pre-image is `0x19 ‖ 0x00 ‖ address ‖ message`, its
length is `2 + 20 + len(message)` for a 20-byte address, and the digest is
the keccak-256 of exactly that pre-image. -/
theorem c8_validator_preimage (keccak : Bytes → Bytes) (addr msg : Bytes)
    (h : addr.length = 20) :
    (SignTextValidator keccak ⟨addr, msg⟩).2 = [0x19, 0x00] ++ addr ++ msg ∧
    (SignTextValidator keccak ⟨addr, msg⟩).2.length = 2 + 20 + msg.length ∧
    (SignTextValidator keccak ⟨addr, msg⟩).1 =
      keccak ((SignTextValidator keccak ⟨addr, msg⟩).2) := by
  refine ⟨rfl, ?_, rfl⟩
  simp [SignTextValidator, h]
  omega

/-- C8 witness on a concrete 20-byte address. -/
theorem c8_validator_preimage_witness :
    (List.replicate 20 17 : Bytes).length = 20 ∧
    (SignTextValidator keccak0 ⟨List.replicate 20 17, [1, 2, 3]⟩).2.length =
      2 + 20 + ([1, 2, 3] : Bytes).length :=
  ⟨by decide, (c8_validator_preimage keccak0 (List.replicate 20 17) [1, 2, 3] (by decide)).2.1⟩

/-- C9: the clique helper fails exactly on extra-data shorter than 65 bytes,
with the precise diagnostic (for 64 bytes, exactly
`"clique header extradata too short, 64 < 65"`); otherwise it returns the
seal hash and RLP of the external clique functions, which per the spec are a
32-byte digest and a non-empty encoding. -/
theorem c9_clique_header_guard (cliqueRLP sealHash : Header → Bytes) (header : Header)
    (hrlp : ∀ hd, cliqueRLP hd ≠ []) (hhash : ∀ hd, (sealHash hd).length = 32) :
    (exOk (cliqueHeaderHashAndRlp cliqueRLP sealHash header) = false ↔
      header.extra.length < 65) ∧
    (header.extra.length < 65 →
      cliqueHeaderHashAndRlp cliqueRLP sealHash header =
        .error ("clique header extradata too short, " ++ Nat.repr header.extra.length ++ " < 65")) ∧
    (header.extra.length = 64 →
      cliqueHeaderHashAndRlp cliqueRLP sealHash header =
        .error "clique header extradata too short, 64 < 65") ∧
    (65 ≤ header.extra.length →
      cliqueHeaderHashAndRlp cliqueRLP sealHash header = .ok (sealHash header, cliqueRLP header) ∧
      (sealHash header).length = 32 ∧ cliqueRLP header ≠ []) := by
  unfold cliqueHeaderHashAndRlp
  by_cases hlt : header.extra.length < 65
  · rw [if_pos hlt]
    refine ⟨by simp [exOk, hlt], fun _ => rfl, fun h64 => ?_,
      fun hge => absurd hge (by omega)⟩
    rw [h64]
    rfl
  · rw [if_neg hlt]
    exact ⟨by simp [exOk, hlt], fun h => absurd h hlt, fun h64 => absurd h64 (by omega),
      fun _ => ⟨rfl, hhash header, hrlp header⟩⟩

/-- C9 witness on a 64-byte-extra header with spec-shaped clique functions. -/
theorem c9_clique_header_guard_witness :
    header64.extra.length = 64 ∧
    cliqueHeaderHashAndRlp cliqueRLP0 sealHash0 header64 =
      .error "clique header extradata too short, 64 < 65" :=
  ⟨by decide,
    (c9_clique_header_guard cliqueRLP0 sealHash0 header64
      (fun _ => by simp [cliqueRLP0]) (fun _ => by simp [sealHash0])).2.2.1 (by decide)⟩

/-- C10: `EncodeData` re-validates the domain before encoding anything, so a
document whose domain fails validation cannot encode any primary type or
message, and `HashStruct` fails with it. -/
theorem c10_encode_revalidates_domain (keccak : Bytes → Bytes) (typedData : TypedData)
    (primaryType : String) (data : GoMap) (depth : Nat)
    (h : exOk (domainValidate typedData.domain) = false) :
    exOk (EncodeData keccak typedData primaryType data depth) = false ∧
    exOk (HashStruct keccak typedData primaryType data) = false := by
  have hval : exOk (tdValidate typedData) = false := by
    unfold tdValidate
    cases htv : typesValidate typedData.types with
    | error e => rfl
    | ok u => exact h
  have hEnc : exOk (EncodeData keccak typedData primaryType data depth) = false :=
    encodeData_validate_err keccak typedData primaryType data depth hval
  refine ⟨hEnc, ?_⟩
  unfold HashStruct
  cases he : EncodeData keccak typedData primaryType data 1 with
  | error e => simp [exOk]
  | ok enc =>
    have hEnc1 : exOk (EncodeData keccak typedData primaryType data 1) = false :=
      encodeData_validate_err keccak typedData primaryType data 1 hval
    rw [he] at hEnc1
    simp [exOk] at hEnc1

/-- C10 witness on a document with an empty domain. -/
theorem c10_encode_revalidates_domain_witness :
    exOk (domainValidate tdNoDomain.domain) = false ∧
    exOk (EncodeData keccak0 tdNoDomain "A" [] 1) = false ∧
    exOk (HashStruct keccak0 tdNoDomain "A" []) = false :=
  ⟨by decide,
    (c10_encode_revalidates_domain keccak0 tdNoDomain "A" [] 1 (by decide)).1,
    (c10_encode_revalidates_domain keccak0 tdNoDomain "A" [] 1 (by decide)).2⟩

end SignedData
